import Mathlib

/-!
Verification development for a teaching-grade transport layer
(`congestion_control.py`): segment codec, sender engine with congestion
control, and receiver engine with cumulative acknowledgments.

The Python code is shallowly embedded: Python floats are modelled as exact
rationals (the algorithms are numeric control laws, not bit-level float
code), Python ints as `Int`/`Nat`, byte strings as `List Nat`, the circular
buffers as functions from slot index to an optional slot, and uncaught
Python exceptions (struct.error, ValueError, TypeError, NameError) as an
explicit error component of each step's result.
-/

/-- Uncaught Python exceptions that the embedded code can raise. -/
inductive PyErr
  | structError
  | valueError
  | typeError
  | nameError
deriving DecidableEq, Repr

/-- `PacketType` from the source: DATA = ord 'D', ACK = ord 'A', SYN = ord 'S'. -/
inductive PacketType
  | data
  | ack
  | syn
deriving DecidableEq, Repr

/-- Numeric value of a packet type tag, as in the Python IntEnum. -/
def PacketType.val : PacketType → ℕ
  | .data => 68
  | .ack => 65
  | .syn => 83

/-- Inverse lookup of a type tag byte; `PacketType(b)` raises ValueError on
anything outside the enum, modelled by `none`. -/
def PacketType.ofByte (b : ℕ) : Option PacketType :=
  if b = 68 then some .data
  else if b = 65 then some .ack
  else if b = 83 then some .syn
  else none

/-- `Packet` from the source: a type tag, a sequence number and a payload.
The sequence number is an integer (Python int); serialization fails outside
the unsigned 32-bit range, as `struct.pack` does. -/
structure Packet where
  ptype : PacketType
  seqNum : ℤ
  data : List ℕ
deriving DecidableEq, Repr

/-- Big-endian 4-byte encoding of a natural number, as `struct.pack` with
format `!I` produces. -/
def be4 (n : ℕ) : List ℕ :=
  [n / 2 ^ 24 % 256, n / 2 ^ 16 % 256, n / 2 ^ 8 % 256, n % 256]

/-- Big-endian 4-byte decoding, as `struct.unpack` with format `!I`. -/
def unbe4 (b0 b1 b2 b3 : ℕ) : ℕ :=
  ((b0 * 256 + b1) * 256 + b2) * 256 + b3

/-- `Packet.to_bytes`: 1-byte type tag, 4-byte big-endian sequence number,
payload.  `struct.pack '!BI'` raises struct.error when the sequence number
is outside `[0, 2^32)`. -/
def Packet.toBytes (p : Packet) : Except PyErr (List ℕ) :=
  if 0 ≤ p.seqNum ∧ p.seqNum < 2 ^ 32 then
    .ok (p.ptype.val :: (be4 p.seqNum.toNat ++ p.data))
  else .error .structError

/-- `Packet.from_bytes`: unpack the 5-byte header (struct.error when fewer
than 5 bytes are supplied), look the type tag up in the enum (ValueError on
an unrecognized tag), and take the rest as payload. -/
def Packet.fromBytes (raw : List ℕ) : Except PyErr Packet :=
  match raw with
  | b0 :: b1 :: b2 :: b3 :: b4 :: rest =>
    match PacketType.ofByte b0 with
    | some t => .ok ⟨t, (unbe4 b1 b2 b3 b4 : ℕ), rest⟩
    | none => .error .valueError
  | _ => .error .structError

/-- State of `Receiver`: cumulative-ACK point, highest sequence seen, and the
circular reorder buffer (`_recv_window`, 1000 slots) holding payloads. -/
structure ReceiverState where
  lastAckSent : ℤ
  maxSeqRecv : ℤ
  recvWindow : ℤ → Option (List ℕ)

/-- `Receiver.__init__`: `last_ack_sent = -1`, `max_seq_recv = -1`, empty window. -/
def recvInit : ReceiverState := ⟨-1, -1, fun _ => none⟩

/-- The ACK-walk loop of `Receiver._recv`: starting from `ack_num`, while
`ack_num < max_seq_recv` (encoded by the fuel, `(max_seq_recv - ack_num).toNat`)
and the next slot is occupied, deliver the payload, clear the slot and
advance.  Returns the final `ack_num`, the window and the delivered payloads. -/
def drainLoop : ℕ → ℤ → (ℤ → Option (List ℕ)) → List (List ℕ) →
    ℤ × (ℤ → Option (List ℕ)) × List (List ℕ)
  | 0, ackNum, w, acc => (ackNum, w, acc)
  | fuel + 1, ackNum, w, acc =>
    match w ((ackNum + 1) % 1000) with
    | none => (ackNum, w, acc)
    | some d =>
      drainLoop fuel (ackNum + 1)
        (fun q => if q = (ackNum + 1) % 1000 then none else w q) (acc ++ [d])

/-- Result of one iteration of the receiver's processing loop: the new state,
the payloads put on the application queue, and the ACK packets sent. -/
structure RecvResult where
  st : ReceiverState
  delivered : List (List ℕ)
  acksSent : List Packet

/-- One iteration of `Receiver._recv` on a decoded packet: a packet at or
below the cumulative-ACK point only triggers a re-ACK; otherwise the payload
is stored at slot `seq_num % 1000` (unconditionally overwriting the slot),
`max_seq_recv` is raised, the contiguous prefix is delivered and cleared,
and one ACK carrying the new `last_ack_sent` is sent.  The packet type is
never inspected. -/
def receiverStep (st : ReceiverState) (p : Packet) : RecvResult :=
  if p.seqNum ≤ st.lastAckSent then
    ⟨st, [], [⟨.ack, st.lastAckSent, []⟩]⟩
  else
    let w1 : ℤ → Option (List ℕ) :=
      fun q => if q = p.seqNum % 1000 then some p.data else st.recvWindow q
    let m1 := if p.seqNum > st.maxSeqRecv then p.seqNum else st.maxSeqRecv
    let r := drainLoop (m1 - st.lastAckSent).toNat st.lastAckSent w1 []
    ⟨⟨r.1, m1, r.2.1⟩, r.2.2, [⟨.ack, r.1, []⟩]⟩

/-- One iteration of `Receiver._recv` at the wire level: `from_bytes` is
called with no surrounding exception handler, so a decode failure
propagates out of the loop. -/
def receiverStepRaw (st : ReceiverState) (raw : List ℕ) : Except PyErr RecvResult :=
  (Packet.fromBytes raw).map (receiverStep st)

/-- Ghost-instrumented receiver state: identical to `ReceiverState` except
that each occupied window slot also records the sequence number it was
stored under, so that per-sequence-number properties can be stated.  The
code stores only the payload; the extra component is proof-only
bookkeeping. -/
structure GReceiverState where
  lastAckSent : ℤ
  maxSeqRecv : ℤ
  recvWindow : ℤ → Option (ℤ × List ℕ)

/-- Ghost-instrumented initial receiver state. -/
def grecvInit : GReceiverState := ⟨-1, -1, fun _ => none⟩

/-- Ghost-instrumented ACK-walk loop, mirroring `drainLoop`. -/
def gdrainLoop : ℕ → ℤ → (ℤ → Option (ℤ × List ℕ)) → List (List ℕ) →
    ℤ × (ℤ → Option (ℤ × List ℕ)) × List (List ℕ)
  | 0, ackNum, w, acc => (ackNum, w, acc)
  | fuel + 1, ackNum, w, acc =>
    match w ((ackNum + 1) % 1000) with
    | none => (ackNum, w, acc)
    | some d =>
      gdrainLoop fuel (ackNum + 1)
        (fun q => if q = (ackNum + 1) % 1000 then none else w q) (acc ++ [d.2])

/-- Ghost-instrumented `Receiver._recv` iteration, mirroring `receiverStep`
and additionally recording, for each stored payload, the sequence number it
belongs to. -/
def greceiverStep (st : GReceiverState) (p : Packet) :
    GReceiverState × List (List ℕ) × List Packet :=
  if p.seqNum ≤ st.lastAckSent then
    (st, [], [⟨.ack, st.lastAckSent, []⟩])
  else
    let w1 : ℤ → Option (ℤ × List ℕ) :=
      fun q => if q = p.seqNum % 1000 then some (p.seqNum, p.data) else st.recvWindow q
    let m1 := if p.seqNum > st.maxSeqRecv then p.seqNum else st.maxSeqRecv
    let r := gdrainLoop (m1 - st.lastAckSent).toNat st.lastAckSent w1 []
    (⟨r.1, m1, r.2.1⟩, r.2.2, [⟨.ack, r.1, []⟩])

/-- Forgetting the ghost sequence numbers of a ghost window. -/
def gproject (w : ℤ → Option (ℤ × List ℕ)) : ℤ → Option (List ℕ) :=
  fun q => (w q).map Prod.snd

/-- The receive-window invariant on the ghost state: the occupied range
spans at most the window size, and every occupied slot holds an entry whose
sequence number lies in `(last_ack_sent, max_seq_received]` and is congruent
to the slot index modulo 1000. -/
def GInv (st : GReceiverState) : Prop :=
  st.maxSeqRecv ≤ st.lastAckSent + 1000 ∧
  ∀ q n p, st.recvWindow q = some (n, p) →
    st.lastAckSent < n ∧ n ≤ st.maxSeqRecv ∧ n % 1000 = q

/-- The `send_time` field of a sender buffer slot: `None` (never sent, or
cleared by the timeout handler), a timestamp (sent exactly once since last
cleared), or the literal `0` the code stores on a retransmission. -/
inductive SendMarker
  | unset
  | sentAt (t : ℚ)
  | retx
deriving DecidableEq, Repr

/-- One sender buffer slot: the buffered packet and its transmission marker. -/
structure SendSlot where
  packet : Packet
  marker : SendMarker
deriving DecidableEq, Repr

/-- State of `Sender`: RTT estimate, window pointers, the circular send
buffer (`_buf`, 5000 slots), congestion window, duplicate-ACK counter, the
single retransmission timer (modelled by the duration it was armed with)
and the two configuration flags. -/
structure SenderState where
  rtt : ℚ
  lastAckRecv : ℤ
  lastSeqSent : ℤ
  lastSeqWritten : ℤ
  buf : ℤ → Option SendSlot
  cwnd : ℚ
  dupAcks : ℕ
  timer : Option ℚ
  useSlowStart : Bool
  useFastRetransmit : Bool

/-- Result of a sender operation: the state after it (including all
mutations performed before any uncaught exception), the sequence numbers
handed to the link in order, and the uncaught exception if one was raised. -/
structure SenderResult where
  st : SenderState
  sent : List ℤ
  err : Option PyErr

/-- Python `int()` on a float/rational: truncation toward zero. -/
def pyInt (q : ℚ) : ℤ := q.num.tdiv (q.den : ℤ)

/-- `Sender._transmit`: look the slot up (`None["packet"]` would raise a
TypeError), send the packet, raise `last_seq_sent`, set the marker (first
transmission records the timestamp, any repeat stores the retransmitted
marker), and restart the single retransmission timer with duration
`2 * rtt`. -/
def transmit (st : SenderState) (now : ℚ) (seqNum : ℤ) : SenderResult :=
  match st.buf (seqNum % 5000) with
  | none => ⟨st, [], some .typeError⟩
  | some sl =>
    let newMarker := match sl.marker with
      | .unset => SendMarker.sentAt now
      | _ => SendMarker.retx
    ⟨{ st with
        lastSeqSent := if st.lastSeqSent < seqNum then seqNum else st.lastSeqSent,
        buf := fun q => if q = seqNum % 5000 then some ⟨sl.packet, newMarker⟩ else st.buf q,
        timer := some (2 * st.rtt) }, [seqNum], none⟩

/-- The marker-clearing loop of `Sender._timeout`:
`for seq_num in range(last_ack_recv + 1, last_seq_sent + 1)` sets each
in-flight slot's `send_time` to `None`; the fuel is the length of the
range and `a` the value before the next sequence number. -/
def clearLoop : ℕ → ℤ → (ℤ → Option SendSlot) → (ℤ → Option SendSlot) × Option PyErr
  | 0, _, buf => (buf, none)
  | fuel + 1, a, buf =>
    match buf ((a + 1) % 5000) with
    | none => (buf, some .typeError)
    | some sl =>
      clearLoop fuel (a + 1)
        (fun q => if q = (a + 1) % 5000 then some ⟨sl.packet, .unset⟩ else buf q)

/-- `Sender._timeout`: halve the congestion window with a floor of 1
(`cwnd = max(1, cwnd // 2)`), clear the markers of all in-flight slots, and
retransmit the oldest unacknowledged sequence number. -/
def senderTimeout (st : SenderState) (now : ℚ) : SenderResult :=
  let st1 := { st with cwnd := max 1 ((⌊st.cwnd / 2⌋ : ℤ) : ℚ) }
  let c := clearLoop (st1.lastSeqSent - st1.lastAckRecv).toNat st1.lastAckRecv st1.buf
  match c.2 with
  | some e => ⟨{ st1 with buf := c.1 }, [], some e⟩
  | none => transmit { st1 with buf := c.1 } now (st1.lastAckRecv + 1)

/-- The advance loop of `Sender._recv`:
`while last_ack_recv < packet.seq_num` increments `last_ack_recv`, samples
the RTT when the slot's marker is a timestamp (`send_time != None and
send_time != 0`), and frees the slot.  The fuel is
`(packet.seq_num - last_ack_recv).toNat`; `a` is the current
`last_ack_recv`.  Returns the new `last_ack_recv`, RTT estimate, buffer,
and the exception if an empty slot was dereferenced. -/
def ackAdvance (now : ℚ) : ℕ → ℤ → ℚ → (ℤ → Option SendSlot) →
    ℤ × ℚ × (ℤ → Option SendSlot) × Option PyErr
  | 0, a, rtt, buf => (a, rtt, buf, none)
  | fuel + 1, a, rtt, buf =>
    match buf ((a + 1) % 5000) with
    | none => (a + 1, rtt, buf, some .typeError)
    | some sl =>
      let rtt1 := match sl.marker with
        | .sentAt t => rtt * (9 / 10) + (now - t) * (1 / 10)
        | _ => rtt
      ackAdvance now fuel (a + 1) rtt1
        (fun q => if q = (a + 1) % 5000 then none else buf q)

/-- The tail of `Sender._recv`'s loop body after the fast-retransmit block:
the slow-start section (`cwnd *= 2` with slow start enabled, else
`cwnd += 1/cwnd`), then the window-opening while loop, whose body
immediately evaluates the undefined name `_last_seq_sent` (the `self.` is
missing in the source) and therefore raises `NameError` on its first
iteration, before transmitting anything. -/
def afterCC (st : SenderState) : SenderResult :=
  let st1 := if st.useSlowStart then { st with cwnd := st.cwnd * 2 }
             else { st with cwnd := st.cwnd + 1 / st.cwnd }
  if st1.lastSeqSent < st1.lastSeqWritten ∧
      st1.lastSeqSent - st1.lastAckRecv < pyInt st1.cwnd
  then ⟨st1, [], some .nameError⟩
  else ⟨st1, [], none⟩

/-- One iteration of `Sender._recv` on a decoded packet: an ACK at or below
`last_ack_recv` is ignored entirely; otherwise advance and free up to the
acknowledged number, clamp `last_seq_sent`, cancel the timer if everything
in flight is acknowledged, run the fast-retransmit block (whose trigger
compares `packet.seq_num` with the already-advanced `last_ack_recv + 1`),
and fall through to the slow-start section and window-opening loop. -/
def senderAck (st : SenderState) (now : ℚ) (p : Packet) : SenderResult :=
  if p.seqNum ≤ st.lastAckRecv then ⟨st, [], none⟩
  else
    let adv := ackAdvance now (p.seqNum - st.lastAckRecv).toNat st.lastAckRecv st.rtt st.buf
    let st1 := { st with lastAckRecv := adv.1, rtt := adv.2.1, buf := adv.2.2.1 }
    match adv.2.2.2 with
    | some e => ⟨st1, [], some e⟩
    | none =>
      let st2 := if st1.lastSeqSent < st1.lastAckRecv
                 then { st1 with lastSeqSent := st1.lastAckRecv } else st1
      let st3 := if st2.timer ≠ none ∧ st2.lastAckRecv = st2.lastSeqSent
                 then { st2 with timer := none } else st2
      if st3.useFastRetransmit then
        if p.seqNum = st3.lastAckRecv + 1 then
          if st3.dupAcks + 1 = 3 then
            let st4 := { st3 with dupAcks := st3.dupAcks + 1, cwnd := st3.cwnd / 2 }
            let r := transmit st4 now (st4.lastAckRecv + 1)
            ⟨{ r.st with dupAcks := 0 }, r.sent, r.err⟩
          else if st3.dupAcks + 1 > 3 then
            afterCC { st3 with dupAcks := st3.dupAcks + 1, cwnd := st3.cwnd + 1 }
          else
            afterCC { st3 with dupAcks := st3.dupAcks + 1 }
        else afterCC st3
      else afterCC { st3 with cwnd := st3.cwnd + 1 / st3.cwnd }

/-- One iteration of `Sender._recv` at the wire level: a `None` from the
link is skipped; `from_bytes` is called with no exception handler, so a
decode failure propagates out of the loop. -/
def senderAckRaw (st : SenderState) (now : ℚ) (raw : Option (List ℕ)) : SenderResult :=
  match raw with
  | none => ⟨st, [], none⟩
  | some bytes =>
    match Packet.fromBytes bytes with
    | .error e => ⟨st, [], some e⟩
    | .ok p => senderAck st now p

/-- `Sender._send` for one chunk: assign the next sequence number, store the
packet in its slot (unconditionally replacing the slot), and transmit
immediately if the in-flight count is below `int(cwnd)`. -/
def senderSend (st : SenderState) (now : ℚ) (data : List ℕ) : SenderResult :=
  let seqNum := st.lastSeqWritten + 1
  let st1 := { st with
    lastSeqWritten := seqNum,
    buf := fun q => if q = seqNum % 5000 then some ⟨⟨.data, seqNum, data⟩, .unset⟩
           else st.buf q }
  if st1.lastSeqSent - st1.lastAckRecv < pyInt st1.cwnd then transmit st1 now seqNum
  else ⟨st1, [], none⟩

/-- `Sender.__init__` given the link delays and the configuration flags:
seed the RTT estimate with `2 * (transmit_delay + propagation_delay)`,
initialize the pointers and the congestion state (`cwnd = 1 if
use_slow_start else 1` in the source), buffer the SYN packet in slot 0, and
transmit it at time `t0`. -/
def senderInit (ss fr : Bool) (td pd t0 : ℚ) : SenderResult :=
  let st0 : SenderState :=
    { rtt := 2 * (td + pd), lastAckRecv := -1, lastSeqSent := -1, lastSeqWritten := 0,
      buf := fun q => if q = 0 then some ⟨⟨.syn, 0, []⟩, .unset⟩ else none,
      cwnd := if ss then 1 else 1, dupAcks := 0, timer := none,
      useSlowStart := ss, useFastRetransmit := fr }
  transmit st0 t0 0

/-- States of the sender reachable through its operations, from any
configuration and any schedule of sends, incoming ACKs and timeouts. -/
inductive SenderReach : SenderState → Prop
  | init (ss fr : Bool) (td pd t0 : ℚ) : SenderReach (senderInit ss fr td pd t0).st
  | send {st : SenderState} (now : ℚ) (data : List ℕ) :
      SenderReach st → SenderReach (senderSend st now data).st
  | ack {st : SenderState} (now : ℚ) (p : Packet) :
      SenderReach st → SenderReach (senderAck st now p).st
  | timeout {st : SenderState} (now : ℚ) :
      SenderReach st → SenderReach (senderTimeout st now).st

/-- The RTT-sample update applied when a slot is cumulatively acknowledged:
only a slot whose `send_time` is a timestamp (sent exactly once since last
cleared) contributes a sample, via `rtt = rtt * 0.9 + elapsed * 0.1`; a
never-sent/cleared or retransmitted marker leaves the estimate unchanged. -/
def sampleUpd (now r : ℚ) : SendMarker → ℚ
  | .sentAt t => r * (9 / 10) + (now - t) * (1 / 10)
  | _ => r

theorem unbe4_be4 (n : ℕ) (h : n < 2 ^ 32) :
    unbe4 (n / 2 ^ 24 % 256) (n / 2 ^ 16 % 256) (n / 2 ^ 8 % 256) (n % 256) = n := by
  unfold unbe4
  omega

theorem ofByte_val (t : PacketType) : PacketType.ofByte t.val = some t := by
  cases t <;> rfl

/-- C9: for every valid Segment (kind one of DATA/ACK/SYN, seq an unsigned
32-bit integer, payload of at most 1400 bytes), decoding the encoding gives
the segment back; and the example packet kind=DATA, seq=7, payload "hello"
encodes to the bytes 44 00 00 00 07 68 65 6C 6C 6F (hex). -/
theorem codec_round_trip :
    (∀ p : Packet, 0 ≤ p.seqNum → p.seqNum < 2 ^ 32 → p.data.length ≤ 1400 →
      p.toBytes.bind Packet.fromBytes = .ok p) ∧
    Packet.toBytes ⟨.data, 7, [104, 101, 108, 108, 111]⟩ =
      .ok [0x44, 0x00, 0x00, 0x00, 0x07, 0x68, 0x65, 0x6C, 0x6C, 0x6F] := by
  refine ⟨?_, by unfold Packet.toBytes be4 PacketType.val; norm_num; decide⟩
  intro p h0 h32 _hlen
  have hb : p.toBytes = .ok (p.ptype.val :: (be4 p.seqNum.toNat ++ p.data)) := by
    unfold Packet.toBytes
    rw [if_pos ⟨h0, h32⟩]
  rw [hb]
  show Packet.fromBytes (p.ptype.val :: (be4 p.seqNum.toNat ++ p.data)) = .ok p
  have hn : p.seqNum.toNat < 2 ^ 32 := by omega
  unfold Packet.fromBytes be4
  simp only [List.cons_append, List.nil_append, ofByte_val]
  rw [unbe4_be4 p.seqNum.toNat hn]
  have : (p.seqNum.toNat : ℤ) = p.seqNum := Int.toNat_of_nonneg h0
  rw [this]

/-- Witness for C9 at the example packet. -/
theorem codec_round_trip_witness :
    (Packet.toBytes ⟨.data, 7, [104, 101, 108, 108, 111]⟩).bind Packet.fromBytes =
      .ok ⟨.data, 7, [104, 101, 108, 108, 111]⟩ :=
  codec_round_trip.1 ⟨.data, 7, [104, 101, 108, 108, 111]⟩ (by decide) (by decide) (by decide)

example : (receiverStep recvInit ⟨.data, 0, [1, 2]⟩).delivered = [[1, 2]] := by decide

example : (receiverStep recvInit ⟨.data, 0, [1, 2]⟩).st.lastAckSent = 0 := by decide

example :
    (receiverStep (receiverStep (receiverStep recvInit ⟨.syn, 0, []⟩).st
      ⟨.data, 2, [9]⟩).st ⟨.data, 1, [7]⟩).delivered = [[7], [9]] := by decide

theorem drainLoop_spec (fuel : ℕ) (a : ℤ) (w : ℤ → Option (List ℕ))
    (acc : List (List ℕ)) :
    a ≤ (drainLoop fuel a w acc).1 ∧
    (drainLoop fuel a w acc).1 ≤ a + fuel ∧
    (drainLoop fuel a w acc).2.2.length =
      acc.length + ((drainLoop fuel a w acc).1 - a).toNat ∧
    ((drainLoop fuel a w acc).1 = a + fuel ∨
      (drainLoop fuel a w acc).2.1 (((drainLoop fuel a w acc).1 + 1) % 1000) = none) := by
  induction fuel generalizing a w acc with
  | zero =>
    simp only [drainLoop]
    refine ⟨le_refl a, by omega, by omega, Or.inl (by omega)⟩
  | succ n ih =>
    cases hw : w ((a + 1) % 1000) with
    | none =>
      simp only [drainLoop, hw]
      exact ⟨le_refl a, by omega, by omega, Or.inr trivial⟩
    | some d =>
      simp only [drainLoop, hw]
      obtain ⟨h1, h2, h3, h4⟩ :=
        ih (a + 1) (fun q => if q = (a + 1) % 1000 then none else w q) (acc ++ [d])
      refine ⟨by omega, by omega, ?_, ?_⟩
      · rw [h3, List.length_append]
        simp only [List.length_cons, List.length_nil]
        omega
      · rcases h4 with h4 | h4
        · exact Or.inl (by omega)
        · exact Or.inr h4

/-- C7: on a DATA segment with sequence `s ≤ last_ack_sent` the receiver
resends the current cumulative ACK and changes nothing else; otherwise it
stores the payload at `s mod 1000`, updates `max_seq_received`, delivers the
contiguous stored payloads from `last_ack_sent + 1` up to the first gap,
sets `last_ack_sent` to the last delivered sequence number and sends exactly
one ACK carrying it.  In the spec scenario (seq 1 already acknowledged,
segment 3 before segment 2) the ACK for 1 is re-sent, and after segment 2
arrives the payloads of segments 2 and 3 are delivered in order and the
cumulative ACK advances to 3. -/
theorem receiver_step_spec :
    (∀ (st : ReceiverState) (p : Packet), p.seqNum ≤ st.lastAckSent →
      receiverStep st p = ⟨st, [], [⟨.ack, st.lastAckSent, []⟩]⟩) ∧
    (∀ (st : ReceiverState) (p : Packet), st.lastAckSent < p.seqNum →
      (receiverStep st p).st.maxSeqRecv = max st.maxSeqRecv p.seqNum ∧
      st.lastAckSent ≤ (receiverStep st p).st.lastAckSent ∧
      (receiverStep st p).delivered.length =
        ((receiverStep st p).st.lastAckSent - st.lastAckSent).toNat ∧
      (receiverStep st p).acksSent = [⟨.ack, (receiverStep st p).st.lastAckSent, []⟩] ∧
      ((receiverStep st p).st.maxSeqRecv ≤ (receiverStep st p).st.lastAckSent ∨
        (receiverStep st p).st.recvWindow
          (((receiverStep st p).st.lastAckSent + 1) % 1000) = none)) ∧
    ((receiverStep ⟨1, 1, fun _ => none⟩ ⟨.data, 3, [30]⟩).delivered = [] ∧
      (receiverStep ⟨1, 1, fun _ => none⟩ ⟨.data, 3, [30]⟩).acksSent = [⟨.ack, 1, []⟩] ∧
      (receiverStep (receiverStep ⟨1, 1, fun _ => none⟩ ⟨.data, 3, [30]⟩).st
        ⟨.data, 2, [20]⟩).delivered = [[20], [30]] ∧
      (receiverStep (receiverStep ⟨1, 1, fun _ => none⟩ ⟨.data, 3, [30]⟩).st
        ⟨.data, 2, [20]⟩).st.lastAckSent = 3 ∧
      (receiverStep (receiverStep ⟨1, 1, fun _ => none⟩ ⟨.data, 3, [30]⟩).st
        ⟨.data, 2, [20]⟩).acksSent = [⟨.ack, 3, []⟩]) := by
  refine ⟨?_, ?_, by decide, by decide, by decide, by decide, by decide⟩
  · intro st p h
    unfold receiverStep
    rw [if_pos h]
  · intro st p h
    have hnot : ¬ p.seqNum ≤ st.lastAckSent := not_le.mpr h
    unfold receiverStep
    rw [if_neg hnot]
    simp only
    set w1 : ℤ → Option (List ℕ) :=
      fun q => if q = p.seqNum % 1000 then some p.data else st.recvWindow q with hw1
    set m1 := if p.seqNum > st.maxSeqRecv then p.seqNum else st.maxSeqRecv with hm1
    have hmax : m1 = max st.maxSeqRecv p.seqNum := by
      rw [hm1]
      rcases le_or_lt p.seqNum st.maxSeqRecv with hc | hc
      · rw [if_neg (not_lt.mpr hc), max_eq_left hc]
      · rw [if_pos hc, max_eq_right hc.le]
    have hm_ge : st.lastAckSent ≤ m1 := by
      rw [hmax]; exact le_trans h.le (le_max_right _ _)
    obtain ⟨h1, h2, h3, h4⟩ :=
      drainLoop_spec (m1 - st.lastAckSent).toNat st.lastAckSent w1 []
    refine ⟨hmax, h1, by simpa using h3, by trivial, ?_⟩
    rcases h4 with h4 | h4
    · exact Or.inl (by omega)
    · exact Or.inr h4

/-- Witness for C7: the duplicate branch at a concrete state, via the
theorem's first component. -/
theorem receiver_step_spec_witness :
    receiverStep ⟨5, 7, fun _ => none⟩ ⟨.data, 4, [1]⟩ =
      ⟨⟨5, 7, fun _ => none⟩, [], [⟨.ack, 5, []⟩]⟩ :=
  receiver_step_spec.1 ⟨5, 7, fun _ => none⟩ ⟨.data, 4, [1]⟩ (by decide)

/-- Counterexample to C8: from the initial receiver state, segment 2 is
received (and cannot be delivered, seq 0 and 1 missing), then segment 1002
arrives; both map to slot 2, so the arrival of 1002 overwrites the buffered
payload of the still-undelivered segment 2. -/
theorem recv_window_overwrite_cex :
    (receiverStep recvInit ⟨.data, 2, [10]⟩).st.recvWindow 2 = some [10] ∧
    (receiverStep recvInit ⟨.data, 2, [10]⟩).delivered = [] ∧
    (receiverStep (receiverStep recvInit ⟨.data, 2, [10]⟩).st
      ⟨.data, 1002, [20]⟩).delivered = [] ∧
    (receiverStep (receiverStep recvInit ⟨.data, 2, [10]⟩).st
      ⟨.data, 1002, [20]⟩).st.recvWindow 2 = some [20] ∧
    (receiverStep (receiverStep recvInit ⟨.data, 2, [10]⟩).st
      ⟨.data, 1002, [20]⟩).st.lastAckSent < 2 ∧
    (2 : ℤ) ≤ (receiverStep (receiverStep recvInit ⟨.data, 2, [10]⟩).st
      ⟨.data, 1002, [20]⟩).st.maxSeqRecv := by
  refine ⟨by decide, by decide, by decide, by decide, by decide, by decide⟩

theorem gdrainLoop_project (fuel : ℕ) (a : ℤ) (w : ℤ → Option (ℤ × List ℕ))
    (acc : List (List ℕ)) :
    (gdrainLoop fuel a w acc).1 = (drainLoop fuel a (gproject w) acc).1 ∧
    gproject (gdrainLoop fuel a w acc).2.1 = (drainLoop fuel a (gproject w) acc).2.1 ∧
    (gdrainLoop fuel a w acc).2.2 = (drainLoop fuel a (gproject w) acc).2.2 := by
  induction fuel generalizing a w acc with
  | zero => exact ⟨rfl, rfl, rfl⟩
  | succ n ih =>
    cases hw : w ((a + 1) % 1000) with
    | none =>
      have hw2 : gproject w ((a + 1) % 1000) = none := by simp [gproject, hw]
      simp only [gdrainLoop, drainLoop, hw, hw2]
      exact ⟨by trivial, by trivial, by trivial⟩
    | some d =>
      have hw2 : gproject w ((a + 1) % 1000) = some d.2 := by simp [gproject, hw]
      simp only [gdrainLoop, drainLoop, hw, hw2]
      have hfun :
          gproject (fun q => if q = (a + 1) % 1000 then none else w q) =
            fun q => if q = (a + 1) % 1000 then none else gproject w q := by
        funext q
        by_cases hq : q = (a + 1) % 1000 <;> simp [gproject, hq]
      have := ih (a + 1) (fun q => if q = (a + 1) % 1000 then none else w q) (acc ++ [d.2])
      rw [hfun] at this
      exact this

/-- The ghost step projects onto the code-faithful step: forgetting the
ghost sequence numbers recovers `receiverStep` exactly. -/
theorem greceiverStep_project (st : GReceiverState) (p : Packet) :
    (receiverStep ⟨st.lastAckSent, st.maxSeqRecv, gproject st.recvWindow⟩ p).st.lastAckSent
        = (greceiverStep st p).1.lastAckSent ∧
    (receiverStep ⟨st.lastAckSent, st.maxSeqRecv, gproject st.recvWindow⟩ p).st.maxSeqRecv
        = (greceiverStep st p).1.maxSeqRecv ∧
    (receiverStep ⟨st.lastAckSent, st.maxSeqRecv, gproject st.recvWindow⟩ p).st.recvWindow
        = gproject (greceiverStep st p).1.recvWindow ∧
    (receiverStep ⟨st.lastAckSent, st.maxSeqRecv, gproject st.recvWindow⟩ p).delivered
        = (greceiverStep st p).2.1 ∧
    (receiverStep ⟨st.lastAckSent, st.maxSeqRecv, gproject st.recvWindow⟩ p).acksSent
        = (greceiverStep st p).2.2 := by
  unfold receiverStep greceiverStep
  by_cases h : p.seqNum ≤ st.lastAckSent
  · simp only [h, if_pos]
    exact ⟨by trivial, by trivial, by trivial, by trivial, by trivial⟩
  · simp only [h, if_neg, if_false]
    have hfun :
        (fun q => if q = p.seqNum % 1000 then some p.data
            else gproject st.recvWindow q) =
          gproject (fun q => if q = p.seqNum % 1000 then some (p.seqNum, p.data)
            else st.recvWindow q) := by
      funext q
      by_cases hq : q = p.seqNum % 1000 <;> simp [gproject, hq]
    simp only [hfun]
    obtain ⟨h1, h2, h3⟩ := gdrainLoop_project
      ((if p.seqNum > st.maxSeqRecv then p.seqNum else st.maxSeqRecv) - st.lastAckSent).toNat
      st.lastAckSent
      (fun q => if q = p.seqNum % 1000 then some (p.seqNum, p.data) else st.recvWindow q) []
    exact ⟨h1.symm, by trivial, h2.symm, h3.symm, by rw [h1]⟩

theorem gdrainLoop_inv (fuel : ℕ) (a m : ℤ) (w : ℤ → Option (ℤ × List ℕ))
    (acc : List (List ℕ)) (hm : m ≤ a + 1000)
    (hw : ∀ q n p, w q = some (n, p) → a < n ∧ n ≤ m ∧ n % 1000 = q) :
    a ≤ (gdrainLoop fuel a w acc).1 ∧
    (∀ q n p, (gdrainLoop fuel a w acc).2.1 q = some (n, p) →
      (gdrainLoop fuel a w acc).1 < n ∧ n ≤ m ∧ n % 1000 = q) := by
  induction fuel generalizing a w acc with
  | zero => exact ⟨le_refl a, fun q n p h => hw q n p h⟩
  | succ fuel ih =>
    cases hslot : w ((a + 1) % 1000) with
    | none =>
      simp only [gdrainLoop, hslot]
      exact ⟨le_refl a, fun q n p h => hw q n p h⟩
    | some d =>
      simp only [gdrainLoop, hslot]
      have hw2 : ∀ q n p,
          (fun q => if q = (a + 1) % 1000 then none else w q) q = some (n, p) →
          a + 1 < n ∧ n ≤ m ∧ n % 1000 = q := by
        intro q n p h
        simp only at h
        by_cases hq : q = (a + 1) % 1000
        · rw [if_pos hq] at h; exact absurd h (by simp)
        · rw [if_neg hq] at h
          obtain ⟨ha, hb, hc⟩ := hw q n p h
          refine ⟨?_, hb, hc⟩
          have hne : n ≠ a + 1 := by
            intro he
            exact hq (by rw [← hc, he])
          omega
      obtain ⟨h1, h2⟩ := ih (a + 1)
        (fun q => if q = (a + 1) % 1000 then none else w q) (acc ++ [d.2])
        (by omega) hw2
      exact ⟨by omega, h2⟩

/-- Amended C8: the claimed slot invariant fails in general (see
`recv_window_overwrite_cex`), but holds as long as every arriving segment's
sequence number is at most `last_ack_sent + 1000`, i.e. while the occupied
range `(last_ack_sent, max_seq_received]` never exceeds the window size:
then every occupied slot belongs to a sequence number in that interval, and
an arriving in-window segment can only overwrite a slot holding that very
same sequence number, never the payload of a different undelivered one. -/
theorem recv_window_invariant_amended (st : GReceiverState) (p : Packet)
    (hinv : GInv st) (hbound : p.seqNum ≤ st.lastAckSent + 1000) :
    GInv (greceiverStep st p).1 ∧
    (st.lastAckSent < p.seqNum →
      ∀ n d, st.recvWindow (p.seqNum % 1000) = some (n, d) → n = p.seqNum) := by
  obtain ⟨hrange, hslots⟩ := hinv
  constructor
  · unfold greceiverStep
    by_cases h : p.seqNum ≤ st.lastAckSent
    · rw [if_pos h]
      exact ⟨hrange, hslots⟩
    · rw [if_neg h]
      simp only
      have hlt : st.lastAckSent < p.seqNum := not_le.mp h
      set m1 := if p.seqNum > st.maxSeqRecv then p.seqNum else st.maxSeqRecv with hm1
      have hm1b : m1 ≤ st.lastAckSent + 1000 := by
        rw [hm1]; split <;> omega
      have hw1 : ∀ q n d,
          (fun q => if q = p.seqNum % 1000 then some (p.seqNum, p.data)
            else st.recvWindow q) q = some (n, d) →
          st.lastAckSent < n ∧ n ≤ m1 ∧ n % 1000 = q := by
        intro q n d hq
        simp only at hq
        by_cases hc : q = p.seqNum % 1000
        · rw [if_pos hc] at hq
          injection hq with hq
          injection hq with hqa hqb
          subst hqa
          refine ⟨hlt, ?_, hc.symm⟩
          rw [hm1]; split <;> omega
        · rw [if_neg hc] at hq
          obtain ⟨ha, hb, hcc⟩ := hslots q n d hq
          refine ⟨ha, ?_, hcc⟩
          rw [hm1]; split <;> omega
      obtain ⟨h1, h2⟩ := gdrainLoop_inv (m1 - st.lastAckSent).toNat st.lastAckSent m1
        (fun q => if q = p.seqNum % 1000 then some (p.seqNum, p.data)
          else st.recvWindow q) [] hm1b hw1
      refine ⟨?_, h2⟩
      show m1 ≤ (gdrainLoop (m1 - st.lastAckSent).toNat st.lastAckSent
        (fun q => if q = p.seqNum % 1000 then some (p.seqNum, p.data)
          else st.recvWindow q) []).1 + 1000
      omega
  · intro hlt n d hslot
    obtain ⟨ha, hb, hc⟩ := hslots (p.seqNum % 1000) n d hslot
    omega

/-- Witness for the amended C8 at a concrete input. -/
theorem recv_window_invariant_amended_witness :
    GInv (greceiverStep grecvInit ⟨.data, 0, [5]⟩).1 :=
  (recv_window_invariant_amended grecvInit ⟨.data, 0, [5]⟩
    ⟨by norm_num [grecvInit], by intro q n p h; exact absurd h (by simp [grecvInit])⟩
    (by norm_num [grecvInit])).1

theorem ackAdvance_ok_fst (now : ℚ) (fuel : ℕ) (a : ℤ) (rtt : ℚ)
    (buf : ℤ → Option SendSlot)
    (h : (ackAdvance now fuel a rtt buf).2.2.2 = none) :
    (ackAdvance now fuel a rtt buf).1 = a + fuel := by
  induction fuel generalizing a rtt buf with
  | zero => simp [ackAdvance]
  | succ n ih =>
    cases hs : buf ((a + 1) % 5000) with
    | none =>
      simp only [ackAdvance, hs] at h
      exact Option.noConfusion h
    | some sl =>
      simp only [ackAdvance, hs] at h ⊢
      rw [ih _ _ _ h]
      push_cast
      ring

theorem transmit_st_proj (st : SenderState) (now : ℚ) (seqNum : ℤ) :
    (transmit st now seqNum).st.cwnd = st.cwnd ∧
    (transmit st now seqNum).st.dupAcks = st.dupAcks ∧
    (transmit st now seqNum).st.rtt = st.rtt ∧
    (transmit st now seqNum).st.lastAckRecv = st.lastAckRecv ∧
    (transmit st now seqNum).st.useSlowStart = st.useSlowStart ∧
    (transmit st now seqNum).st.useFastRetransmit = st.useFastRetransmit := by
  unfold transmit
  cases st.buf (seqNum % 5000) <;> exact ⟨rfl, rfl, rfl, rfl, rfl, rfl⟩

theorem afterCC_st (st : SenderState) :
    (afterCC st).st = (if st.useSlowStart then { st with cwnd := st.cwnd * 2 }
      else { st with cwnd := st.cwnd + 1 / st.cwnd }) ∧ (afterCC st).sent = [] := by
  unfold afterCC
  by_cases hss : st.useSlowStart = true
  · rw [if_pos hss]
    simp only [hss, if_true]
    split <;> exact ⟨rfl, rfl⟩
  · rw [if_neg hss]
    simp only [hss, if_false]
    split <;> exact ⟨rfl, rfl⟩

theorem afterCC_cwnd (st : SenderState) (h : 1 ≤ st.cwnd) :
    1 ≤ (afterCC st).st.cwnd := by
  rw [(afterCC_st st).1]
  have hpos : 0 < 1 / st.cwnd := by positivity
  by_cases hss : st.useSlowStart = true
  · rw [if_pos hss]
    show 1 ≤ st.cwnd * 2
    linarith
  · rw [if_neg hss]
    show 1 ≤ st.cwnd + 1 / st.cwnd
    linarith

theorem senderAck_progress (st : SenderState) (now : ℚ) (p : Packet)
    (hgt : st.lastAckRecv < p.seqNum)
    (hok : (ackAdvance now (p.seqNum - st.lastAckRecv).toNat
      st.lastAckRecv st.rtt st.buf).2.2.2 = none) :
    senderAck st now p =
      afterCC
        { st with
          lastAckRecv := p.seqNum,
          rtt := (ackAdvance now (p.seqNum - st.lastAckRecv).toNat
            st.lastAckRecv st.rtt st.buf).2.1,
          buf := (ackAdvance now (p.seqNum - st.lastAckRecv).toNat
            st.lastAckRecv st.rtt st.buf).2.2.1,
          lastSeqSent := if st.lastSeqSent < p.seqNum then p.seqNum else st.lastSeqSent,
          timer := if st.timer ≠ none ∧
              p.seqNum = (if st.lastSeqSent < p.seqNum then p.seqNum else st.lastSeqSent)
            then none else st.timer,
          cwnd := if st.useFastRetransmit then st.cwnd else st.cwnd + 1 / st.cwnd } := by
  have hfst : (ackAdvance now (p.seqNum - st.lastAckRecv).toNat
      st.lastAckRecv st.rtt st.buf).1 = p.seqNum := by
    rw [ackAdvance_ok_fst _ _ _ _ _ hok]
    omega
  unfold senderAck
  rw [if_neg (not_le.mpr hgt)]
  simp only [hok, hfst]
  split_ifs <;> first | rfl | (simp only [] at *; omega)

theorem senderAck_dup (st : SenderState) (now : ℚ) (p : Packet)
    (h : p.seqNum ≤ st.lastAckRecv) :
    senderAck st now p = ⟨st, [], none⟩ := by
  unfold senderAck
  rw [if_pos h]

theorem senderAck_err_proj (st : SenderState) (now : ℚ) (p : Packet)
    (hgt : st.lastAckRecv < p.seqNum) (e : PyErr)
    (he : (ackAdvance now (p.seqNum - st.lastAckRecv).toNat
      st.lastAckRecv st.rtt st.buf).2.2.2 = some e) :
    (senderAck st now p).st.cwnd = st.cwnd ∧
    (senderAck st now p).st.dupAcks = st.dupAcks ∧
    (senderAck st now p).sent = [] := by
  unfold senderAck
  rw [if_neg (not_le.mpr hgt)]
  simp only [he]
  exact ⟨by trivial, by trivial, by trivial⟩

theorem senderSend_st_proj (st : SenderState) (now : ℚ) (data : List ℕ) :
    (senderSend st now data).st.cwnd = st.cwnd ∧
    (senderSend st now data).st.dupAcks = st.dupAcks := by
  simp only [senderSend]
  split
  · exact ⟨(transmit_st_proj _ _ _).1, (transmit_st_proj _ _ _).2.1⟩
  · exact ⟨by trivial, by trivial⟩

theorem senderTimeout_cwnd (st : SenderState) (now : ℚ) :
    1 ≤ (senderTimeout st now).st.cwnd := by
  simp only [senderTimeout]
  split
  · exact le_max_left 1 _
  · rw [(transmit_st_proj _ _ _).1]
    exact le_max_left 1 _

theorem senderInit_cwnd (ss fr : Bool) (td pd t0 : ℚ) :
    (senderInit ss fr td pd t0).st.cwnd = 1 := by
  unfold senderInit
  refine ((transmit_st_proj _ _ _).1).trans ?_
  cases ss <;> rfl

/-- C2: in every reachable state of the sender's congestion-control state,
`cwnd ≥ 1`; in particular this still holds after any `_timeout` event
(which sets `cwnd = max(1, cwnd // 2)`) and after any sequence of
duplicate-acknowledgment arrivals in fast-retransmit mode (which the code
ignores without touching `cwnd`). -/
theorem cwnd_floor (st : SenderState) (h : SenderReach st) : 1 ≤ st.cwnd := by
  induction h with
  | init ss fr td pd t0 =>
    rw [senderInit_cwnd]
  | send now data _ ih =>
    rw [(senderSend_st_proj _ _ _).1]
    exact ih
  | ack now p _ ih =>
    rename_i st' _
    by_cases hle : p.seqNum ≤ st'.lastAckRecv
    · rw [senderAck_dup _ _ _ hle]
      exact ih
    · cases herr : (ackAdvance now (p.seqNum - st'.lastAckRecv).toNat
        st'.lastAckRecv st'.rtt st'.buf).2.2.2 with
      | some e =>
        rw [(senderAck_err_proj _ _ _ (not_le.mp hle) e herr).1]
        exact ih
      | none =>
        rw [senderAck_progress _ _ _ (not_le.mp hle) herr]
        apply afterCC_cwnd
        show 1 ≤ if st'.useFastRetransmit then st'.cwnd else st'.cwnd + 1 / st'.cwnd
        have hpos : 0 < 1 / st'.cwnd := by positivity
        split
        · exact ih
        · linarith
  | timeout now _ _ =>
    exact senderTimeout_cwnd _ _

/-- Witness for C2: a concrete reachable state, after an initialization, a
buffered send and a timeout. -/
theorem cwnd_floor_witness :
    1 ≤ (senderTimeout (senderSend (senderInit true true 1 1 0).st 2 [7]).st 9).st.cwnd :=
  cwnd_floor _ (SenderReach.timeout 9 (SenderReach.send 2 [7]
    (SenderReach.init true true 1 1 0)))

theorem transmit_eq (st : SenderState) (now : ℚ) (seqNum : ℤ) (sl : SendSlot)
    (h : st.buf (seqNum % 5000) = some sl) :
    transmit st now seqNum =
      ⟨{ st with
          lastSeqSent := if st.lastSeqSent < seqNum then seqNum else st.lastSeqSent,
          buf := fun q => if q = seqNum % 5000 then
              some ⟨sl.packet,
                match sl.marker with | .unset => .sentAt now | _ => .retx⟩
            else st.buf q,
          timer := some (2 * st.rtt) }, [seqNum], none⟩ := by
  unfold transmit
  simp only [h]

theorem clearLoop_ok (fuel : ℕ) (a : ℤ) (buf : ℤ → Option SendSlot)
    (hocc : ∀ i : ℕ, i < fuel → (buf ((a + 1 + i) % 5000)).isSome) :
    (clearLoop fuel a buf).2 = none ∧
    (∀ s : ℤ, a < s → s ≤ a + fuel →
      (clearLoop fuel a buf).1 (s % 5000) =
        (buf (s % 5000)).map (fun sl => ⟨sl.packet, .unset⟩)) ∧
    (∀ q : ℤ, (∀ s : ℤ, a < s → s ≤ a + fuel → s % 5000 ≠ q) →
      (clearLoop fuel a buf).1 q = buf q) := by
  induction fuel generalizing a buf with
  | zero =>
    refine ⟨rfl, ?_, ?_⟩
    · intro s hs1 hs2
      omega
    · intro q _
      rfl
  | succ fuel ih =>
    obtain ⟨sl, hsl⟩ := Option.isSome_iff_exists.mp (hocc 0 (Nat.succ_pos fuel))
    have hsl1 : buf ((a + 1) % 5000) = some sl := by
      have : a + 1 + (0 : ℕ) = a + 1 := by push_cast; ring
      rw [← this]
      exact hsl
    have hbody : clearLoop (fuel + 1) a buf =
        clearLoop fuel (a + 1)
          (fun q => if q = (a + 1) % 5000 then some ⟨sl.packet, .unset⟩ else buf q) := by
      show (match buf ((a + 1) % 5000) with
        | none => (buf, some PyErr.typeError)
        | some sl => clearLoop fuel (a + 1)
            (fun q => if q = (a + 1) % 5000 then some ⟨sl.packet, .unset⟩ else buf q)) = _
      rw [hsl1]
    set buf1 : ℤ → Option SendSlot :=
      fun q => if q = (a + 1) % 5000 then some ⟨sl.packet, .unset⟩ else buf q with hbuf1
    have hocc1 : ∀ i : ℕ, i < fuel → (buf1 ((a + 1 + 1 + i) % 5000)).isSome := by
      intro i hi
      rw [hbuf1]
      simp only
      by_cases hq : (a + 1 + 1 + (i : ℤ)) % 5000 = (a + 1) % 5000
      · rw [if_pos hq]; rfl
      · rw [if_neg hq]
        have : (a + 1 + ((i + 1 : ℕ) : ℤ)) = a + 1 + 1 + (i : ℤ) := by push_cast; ring
        have h2 := hocc (i + 1) (by omega)
        rw [this] at h2
        exact h2
    obtain ⟨ih1, ih2, ih3⟩ := ih (a + 1) buf1 hocc1
    refine ⟨by rw [hbody]; exact ih1, ?_, ?_⟩
    · intro s hs1 hs2
      rw [hbody]
      by_cases hgt : a + 1 < s
      · rw [ih2 s hgt (by push_cast at hs2 ⊢; omega)]
        by_cases hq : s % 5000 = (a + 1) % 5000
        · rw [hbuf1]
          simp only [if_pos hq]
          rw [hq, hsl1]
          rfl
        · rw [hbuf1]
          simp only [if_neg hq]
      · have hs : s = a + 1 := by omega
        subst hs
        by_cases hhit : ∃ t : ℤ, a + 1 < t ∧ t ≤ a + 1 + fuel ∧ t % 5000 = (a + 1) % 5000
        · obtain ⟨t, ht1, ht2, ht3⟩ := hhit
          have := ih2 t ht1 (by omega)
          rw [ht3] at this
          rw [this]
          rw [hbuf1]
          simp only [if_pos rfl]
          rw [hsl1]
          rfl
        · push_neg at hhit
          rw [ih3 ((a + 1) % 5000) (fun t ht1 ht2 => hhit t ht1 (by omega))]
          rw [hbuf1]
          simp only [if_pos rfl]
          rw [hsl1]
          rfl
    · intro q hq
      rw [hbody]
      have hq1 : (a + 1) % 5000 ≠ q := by
        refine hq (a + 1) (by omega) (by push_cast; omega)
      rw [ih3 q (fun t ht1 ht2 => hq t (by omega) (by push_cast at ht2 ⊢; omega))]
      rw [hbuf1]
      exact if_neg (fun h => hq1 h.symm)

/-- Counterexample to C3: at a state with `cwnd = 4` and
`duplicate_ack_count = 1`, the timeout handler leaves `cwnd = 2` (the code
runs `cwnd = max(1, cwnd // 2)`, not `cwnd = 1`), does not reset the
duplicate-ACK counter, and no `ssthresh` variable exists in the code at
all. -/
theorem timeout_cex :
    (senderTimeout ⟨2, -1, 0, 0,
        (fun q => if q = 0 then some ⟨⟨.syn, 0, []⟩, .sentAt 0⟩ else none),
        4, 1, some 4, false, false⟩ 9).st.cwnd = 2 ∧
    ¬(senderTimeout ⟨2, -1, 0, 0,
        (fun q => if q = 0 then some ⟨⟨.syn, 0, []⟩, .sentAt 0⟩ else none),
        4, 1, some 4, false, false⟩ 9).st.cwnd = 1 ∧
    (senderTimeout ⟨2, -1, 0, 0,
        (fun q => if q = 0 then some ⟨⟨.syn, 0, []⟩, .sentAt 0⟩ else none),
        4, 1, some 4, false, false⟩ 9).st.dupAcks = 1 := by
  have hcl : clearLoop ((0 : ℤ) - (-1)).toNat (-1)
      (fun q => if q = 0 then some ⟨⟨.syn, 0, []⟩, .sentAt 0⟩ else none) =
      ((fun q => if q = (0 : ℤ) then some ⟨⟨.syn, 0, []⟩, .unset⟩ else none),
        none) := by
    show clearLoop 1 (-1) _ = _
    simp only [clearLoop]
    norm_num
    funext q
    by_cases hq : q = (0 : ℤ)
    · simp [hq]
    · simp [hq]
  have hfl : max (1 : ℚ) ((⌊(4 : ℚ) / 2⌋ : ℤ) : ℚ) = 2 := by norm_num
  simp only [senderTimeout, hcl, transmit]
  norm_num [hfl]

/-- Amended C3: when the retransmission timer expires with data in flight
(all in-flight slots occupied, at most 5000 in flight), the sender sets
`cwnd = max(1, floor(cwnd / 2))` — there is no `ssthresh`, no phase
variable, and `duplicate_ack_count` is not reset — clears the
transmission-timestamp markers of all other in-flight slots, and issues
exactly one retransmission, of the oldest unacknowledged segment, whose
slot ends up re-stamped with the retransmission's send time. -/
theorem timeout_response_amended (st : SenderState) (now : ℚ)
    (hin : st.lastAckRecv < st.lastSeqSent)
    (hspan : st.lastSeqSent - st.lastAckRecv ≤ 5000)
    (hocc : ∀ s : ℤ, st.lastAckRecv < s → s ≤ st.lastSeqSent →
      (st.buf (s % 5000)).isSome) :
    (senderTimeout st now).st.cwnd = max 1 ((⌊st.cwnd / 2⌋ : ℤ) : ℚ) ∧
    (senderTimeout st now).st.dupAcks = st.dupAcks ∧
    (senderTimeout st now).sent = [st.lastAckRecv + 1] ∧
    (senderTimeout st now).err = none ∧
    (∀ s : ℤ, st.lastAckRecv + 1 < s → s ≤ st.lastSeqSent →
      (senderTimeout st now).st.buf (s % 5000) =
        (st.buf (s % 5000)).map (fun sl => ⟨sl.packet, .unset⟩)) ∧
    (senderTimeout st now).st.buf ((st.lastAckRecv + 1) % 5000) =
      (st.buf ((st.lastAckRecv + 1) % 5000)).map
        (fun sl => ⟨sl.packet, .sentAt now⟩) := by
  have hfuel : st.lastAckRecv + ((st.lastSeqSent - st.lastAckRecv).toNat : ℤ) =
      st.lastSeqSent := by omega
  have hocc1 : ∀ i : ℕ, i < (st.lastSeqSent - st.lastAckRecv).toNat →
      (st.buf ((st.lastAckRecv + 1 + i) % 5000)).isSome := by
    intro i hi
    exact hocc (st.lastAckRecv + 1 + i) (by omega) (by omega)
  obtain ⟨hc1, hc2, hc3⟩ :=
    clearLoop_ok (st.lastSeqSent - st.lastAckRecv).toNat st.lastAckRecv st.buf hocc1
  obtain ⟨sl0, hsl0⟩ := Option.isSome_iff_exists.mp
    (hocc (st.lastAckRecv + 1) (by omega) (by omega))
  have hold : (clearLoop (st.lastSeqSent - st.lastAckRecv).toNat
      st.lastAckRecv st.buf).1 ((st.lastAckRecv + 1) % 5000) =
      some ⟨sl0.packet, .unset⟩ := by
    rw [hc2 (st.lastAckRecv + 1) (by omega) (by omega), hsl0]
    rfl
  simp only [senderTimeout, hc1]
  rw [transmit_eq _ now (st.lastAckRecv + 1) ⟨sl0.packet, .unset⟩ hold]
  refine ⟨by trivial, by trivial, by trivial, by trivial, ?_, ?_⟩
  · intro s hs1 hs2
    have hne : ¬ s % 5000 = (st.lastAckRecv + 1) % 5000 := by omega
    show (if s % 5000 = (st.lastAckRecv + 1) % 5000 then _ else _) = _
    rw [if_neg hne]
    exact hc2 s (by omega) (by omega)
  · show (if (st.lastAckRecv + 1) % 5000 = (st.lastAckRecv + 1) % 5000
      then _ else _) = _
    rw [if_pos rfl, hsl0]
    rfl

/-- Witness for the amended C3 at a concrete state with one in-flight
segment. -/
theorem timeout_response_amended_witness :
    (senderTimeout ⟨2, -1, 0, 0,
        (fun q => if q = 0 then some ⟨⟨.syn, 0, []⟩, .sentAt 0⟩ else none),
        4, 1, some 4, false, false⟩ 9).sent = [0] :=
  (timeout_response_amended _ 9 (by decide) (by decide)
    (by
      intro s h1 h2
      simp only [] at h1 h2
      have hs : s = 0 := by omega
      subst hs
      decide)).2.2.1

theorem afterCC_dupAcks (st : SenderState) :
    (afterCC st).st.dupAcks = st.dupAcks := by
  rw [(afterCC_st st).1]
  split <;> rfl

/-- C4, evaluated against the code: the duplicate-acknowledgment logic is
dead code.  An ACK with `seq ≤ last_ack_recv` is dropped by the guard at
the top of `Sender._recv` before the fast-retransmit block, and for any
other ACK the trigger compares `packet.seq_num` with `last_ack_recv + 1`
after `last_ack_recv` has already been advanced to `packet.seq_num`, so it
can never hold.  Hence `duplicate_ack_count` never changes, ACK processing
never transmits anything, and in particular three duplicate ACKs for the
oldest unacknowledged sequence number (seq 5 below, with fast retransmit
enabled) leave the state completely unchanged: no `ssthresh`, no
`cwnd = ssthresh + 3`, no retransmission. -/
theorem fast_retransmit_dead :
    (∀ (st : SenderState) (now : ℚ) (p : Packet),
      (senderAck st now p).st.dupAcks = st.dupAcks ∧
      (senderAck st now p).sent = []) ∧
    (senderAck ⟨2, 5, 6, 6,
        (fun q => if q = 6 then some ⟨⟨.data, 6, [1]⟩, .sentAt 0⟩ else none),
        8, 0, some 4, true, true⟩ 10 ⟨.ack, 5, []⟩ =
      ⟨⟨2, 5, 6, 6,
        (fun q => if q = 6 then some ⟨⟨.data, 6, [1]⟩, .sentAt 0⟩ else none),
        8, 0, some 4, true, true⟩, [], none⟩) := by
  constructor
  · intro st now p
    by_cases hle : p.seqNum ≤ st.lastAckRecv
    · rw [senderAck_dup _ _ _ hle]
      exact ⟨rfl, rfl⟩
    · cases herr : (ackAdvance now (p.seqNum - st.lastAckRecv).toNat
        st.lastAckRecv st.rtt st.buf).2.2.2 with
      | some e =>
        obtain ⟨_, h2, h3⟩ := senderAck_err_proj st now p (not_le.mp hle) e herr
        exact ⟨h2, h3⟩
      | none =>
        rw [senderAck_progress _ _ _ (not_le.mp hle) herr]
        exact ⟨afterCC_dupAcks _, (afterCC_st _).2⟩
  · exact senderAck_dup _ _ _ (by decide)

/-- Counterexample to C5: in pure-AIMD configuration (slow start and fast
retransmit both disabled) a single new cumulative ACK from `cwnd = 1` gives
`cwnd = 5/2`, because the code adds `1/cwnd` twice (once in the
fast-retransmit `else` arm, once in the slow-start `else` arm), not the
claimed single `1/cwnd` increment (which would give 2).  With slow start
enabled the code doubles `cwnd` instead of adding 1, and no `ssthresh`
comparison or phase transition exists anywhere. -/
theorem ack_growth_cex :
    (senderAck ⟨2, -1, 0, 0,
        (fun q => if q = 0 then some ⟨⟨.syn, 0, []⟩, .sentAt 0⟩ else none),
        1, 0, some 4, false, false⟩ 1 ⟨.ack, 0, []⟩).st.cwnd = 5 / 2 ∧
    ¬(senderAck ⟨2, -1, 0, 0,
        (fun q => if q = 0 then some ⟨⟨.syn, 0, []⟩, .sentAt 0⟩ else none),
        1, 0, some 4, false, false⟩ 1 ⟨.ack, 0, []⟩).st.cwnd = 2 := by
  have h := senderAck_progress ⟨2, -1, 0, 0,
      (fun q => if q = 0 then some ⟨⟨.syn, 0, []⟩, .sentAt 0⟩ else none),
      1, 0, some 4, false, false⟩ 1 ⟨.ack, 0, []⟩ (by decide) (by decide)
  rw [h, (afterCC_st _).1]
  constructor
  · show (1 + 1 / 1 : ℚ) + 1 / (1 + 1 / 1) = 5 / 2
    norm_num
  · show ¬((1 + 1 / 1 : ℚ) + 1 / (1 + 1 / 1) = 2)
    norm_num

/-- Amended C5: the congestion window update per new cumulative ACK (with
all acknowledged slots occupied).  There is no `ssthresh` and no phase
variable.  Starting from `c = cwnd`: with fast retransmit disabled the code
first adds `1/c`; then, with slow start enabled it doubles the result,
else it adds `1/result` once more.  So per new ACK: slow start on /
fast retransmit on: `cwnd *= 2`; slow start on / fast retransmit off:
`cwnd = (c + 1/c) * 2`; both off: `cwnd = (c + 1/c) + 1/(c + 1/c)`;
slow start off / fast retransmit on: `cwnd = c + 1/c`. -/
theorem ack_cwnd_growth (st : SenderState) (now : ℚ) (p : Packet)
    (hgt : st.lastAckRecv < p.seqNum)
    (hok : (ackAdvance now (p.seqNum - st.lastAckRecv).toNat
      st.lastAckRecv st.rtt st.buf).2.2.2 = none) :
    (senderAck st now p).st.cwnd =
      (let c := if st.useFastRetransmit then st.cwnd else st.cwnd + 1 / st.cwnd
       if st.useSlowStart then c * 2 else c + 1 / c) := by
  rw [senderAck_progress _ _ _ hgt hok, (afterCC_st _).1]
  by_cases hss : st.useSlowStart = true
  · rw [if_pos hss]
    show _ = (let c := if st.useFastRetransmit then st.cwnd else st.cwnd + 1 / st.cwnd
      if st.useSlowStart then c * 2 else c + 1 / c)
    simp only [hss, if_true]
  · rw [if_neg hss]
    show _ = (let c := if st.useFastRetransmit then st.cwnd else st.cwnd + 1 / st.cwnd
      if st.useSlowStart then c * 2 else c + 1 / c)
    simp [hss]

/-- Witness for the amended C5 at a concrete pure-AIMD state. -/
theorem ack_cwnd_growth_witness :
    (senderAck ⟨2, -1, 0, 0,
        (fun q => if q = 0 then some ⟨⟨.syn, 0, []⟩, .sentAt 0⟩ else none),
        1, 0, some 4, false, false⟩ 1 ⟨.ack, 0, []⟩).st.cwnd =
      (let c := if (false : Bool) then (1 : ℚ) else 1 + 1 / 1
       if (false : Bool) then c * 2 else c + 1 / c) :=
  ack_cwnd_growth ⟨2, -1, 0, 0,
      (fun q => if q = 0 then some ⟨⟨.syn, 0, []⟩, .sentAt 0⟩ else none),
      1, 0, some 4, false, false⟩ 1 ⟨.ack, 0, []⟩ (by decide) (by decide)

/-- C6: RTT estimation.  (1) The estimate is seeded as
`rtt0 = 2 * (transmit_delay + propagation_delay)`.  (2) Every transmission
arms the retransmission timer with `2 * rtt`.  (3) When slots are
cumulatively acknowledged, the resulting estimate is the fold of
`sampleUpd` over the acknowledged slots' markers: a sample
`rtt = 0.9 * rtt + 0.1 * (now - send_time)` is taken exactly for slots
whose marker is a timestamp, never for a retransmitted (or cleared)
marker. -/
theorem rtt_estimation :
    (∀ (ss fr : Bool) (td pd t0 : ℚ),
      (senderInit ss fr td pd t0).st.rtt = 2 * (td + pd)) ∧
    (∀ (st : SenderState) (now : ℚ) (seqNum : ℤ) (sl : SendSlot),
      st.buf (seqNum % 5000) = some sl →
      (transmit st now seqNum).st.timer = some (2 * st.rtt)) ∧
    (∀ (now r t : ℚ), sampleUpd now r (.sentAt t) = r * (9 / 10) + (now - t) * (1 / 10) ∧
      sampleUpd now r .retx = r ∧ sampleUpd now r .unset = r) ∧
    (∀ (now : ℚ) (fuel : ℕ) (a : ℤ) (rtt : ℚ) (buf : ℤ → Option SendSlot),
      fuel ≤ 5000 →
      (ackAdvance now fuel a rtt buf).2.2.2 = none →
      (ackAdvance now fuel a rtt buf).2.1 =
        (List.range fuel).foldl
          (fun (r : ℚ) (i : ℕ) => match buf ((a + 1 + (i : ℤ)) % 5000) with
            | some sl => sampleUpd now r sl.marker
            | none => r) rtt) := by
  refine ⟨?_, ?_, ?_, ?_⟩
  · intro ss fr td pd t0
    exact (transmit_st_proj _ _ _).2.2.1
  · intro st now seqNum sl h
    rw [transmit_eq _ _ _ _ h]
  · intro now r t
    exact ⟨rfl, rfl, rfl⟩
  · intro now fuel
    induction fuel with
    | zero =>
      intro a rtt buf _ _
      rfl
    | succ n ih =>
      intro a rtt buf hle hok
      cases hs : buf ((a + 1) % 5000) with
      | none =>
        simp only [ackAdvance, hs] at hok
        exact Option.noConfusion hok
      | some sl =>
        simp only [ackAdvance, hs] at hok ⊢
        have hconv : (match sl.marker with
            | SendMarker.sentAt t => rtt * (9 / 10) + (now - t) * (1 / 10)
            | _ => rtt) = sampleUpd now rtt sl.marker := by
          cases sl.marker <;> rfl
        rw [hconv] at hok ⊢
        rw [ih (a + 1) (sampleUpd now rtt sl.marker)
          (fun q => if q = (a + 1) % 5000 then none else buf q) (by omega) hok]
        rw [List.range_succ_eq_map, List.foldl_cons, List.foldl_map]
        have h0 : (a + 1 + ((0 : ℕ) : ℤ)) = a + 1 := by push_cast; ring
        rw [h0, hs]
        refine List.foldl_ext _ _ _ ?_
        intro r i hi
        have hi1 : i < n := List.mem_range.mp hi
        have harg : (a + 1 + 1 + (i : ℤ)) = a + 1 + ((i.succ : ℕ) : ℤ) := by
          push_cast; ring
        have hne : ¬ (a + 1 + ((i.succ : ℕ) : ℤ)) % 5000 = (a + 1) % 5000 := by
          push_cast
          omega
        rw [← harg] at hne ⊢
        rw [if_neg hne]

/-- Witness for C6: the timer armed by a concrete transmission is twice the
current RTT estimate. -/
theorem rtt_estimation_witness :
    (transmit ⟨3, -1, 0, 0,
        (fun q => if q = 0 then some ⟨⟨.syn, 0, []⟩, .unset⟩ else none),
        1, 0, none, false, false⟩ 7 0).st.timer = some (2 * 3) :=
  rtt_estimation.2.1 ⟨3, -1, 0, 0,
      (fun q => if q = 0 then some ⟨⟨.syn, 0, []⟩, .unset⟩ else none),
      1, 0, none, false, false⟩ 7 0 ⟨⟨.syn, 0, []⟩, .unset⟩ (by decide)

theorem fromBytes_short (raw : List ℕ) (h : raw.length < 5) :
    Packet.fromBytes raw = .error .structError := by
  match raw with
  | [] => rfl
  | [b0] => rfl
  | [b0, b1] => rfl
  | [b0, b1, b2] => rfl
  | [b0, b1, b2, b3] => rfl
  | b0 :: b1 :: b2 :: b3 :: b4 :: rest =>
    exfalso
    simp only [List.length_cons] at h
    omega

/-- Counterexample to C10: a one-byte datagram makes `from_bytes` raise
(struct.error), which the receiver loop does not catch, so processing
terminates rather than being handled locally; and a SYN segment arriving at
the receiver is not ignored: it is buffered, its (empty) payload is
delivered to the application queue, and it is acknowledged. -/
theorem malformed_handling_cex :
    receiverStepRaw recvInit [68] = .error .structError ∧
    (receiverStep recvInit ⟨.syn, 0, []⟩).delivered = [[]] ∧
    (receiverStep recvInit ⟨.syn, 0, []⟩).acksSent = [⟨.ack, 0, []⟩] := by
  refine ⟨by rfl, by decide, by decide⟩

/-- Amended C10: decode failures are not handled locally: a too-short
datagram raises struct.error and an unrecognized kind tag raises
ValueError, and since neither engine's receive loop has an exception
handler, the exception terminates that loop (the error is not returned to
`send`/`recv` callers).  Only the link's `None` (closed channel) result is
handled by the sender's loop, which skips it.  Non-DATA segments at the
Receiver Engine are not ignored: the receiver never inspects the packet
type, so a SYN or ACK segment is buffered, delivered and acknowledged
exactly as a DATA segment with the same sequence number and payload would
be. -/
theorem malformed_handling_amended :
    (∀ (st : ReceiverState) (raw : List ℕ), raw.length < 5 →
      receiverStepRaw st raw = .error .structError) ∧
    (∀ (st : ReceiverState) (b0 b1 b2 b3 b4 : ℕ) (rest : List ℕ),
      b0 ≠ 68 → b0 ≠ 65 → b0 ≠ 83 →
      receiverStepRaw st (b0 :: b1 :: b2 :: b3 :: b4 :: rest) = .error .valueError) ∧
    (∀ (st : SenderState) (now : ℚ) (raw : List ℕ), raw.length < 5 →
      senderAckRaw st now (some raw) = ⟨st, [], some .structError⟩) ∧
    (∀ (st : SenderState) (now : ℚ), senderAckRaw st now none = ⟨st, [], none⟩) ∧
    (∀ (st : ReceiverState) (t1 t2 : PacketType) (s : ℤ) (d : List ℕ),
      receiverStep st ⟨t1, s, d⟩ = receiverStep st ⟨t2, s, d⟩) := by
  refine ⟨?_, ?_, ?_, ?_, ?_⟩
  · intro st raw h
    unfold receiverStepRaw
    rw [fromBytes_short raw h]
    rfl
  · intro st b0 b1 b2 b3 b4 rest h1 h2 h3
    unfold receiverStepRaw Packet.fromBytes
    simp only [PacketType.ofByte, if_neg h1, if_neg h2, if_neg h3]
    rfl
  · intro st now raw h
    show (match Packet.fromBytes raw with
      | Except.error e => ({ st := st, sent := [], err := some e } : SenderResult)
      | Except.ok p => senderAck st now p) = _
    rw [fromBytes_short raw h]
  · intro st now
    rfl
  · intro st t1 t2 s d
    rfl

/-- Witness for the amended C10 at a concrete malformed input. -/
theorem malformed_handling_amended_witness :
    receiverStepRaw recvInit [68, 0] = .error .structError :=
  malformed_handling_amended.1 recvInit [68, 0] (by decide)

theorem one_le_pyInt (q : ℚ) (h : 1 ≤ q) : 1 ≤ pyInt q := by
  have hq0 : (0 : ℚ) ≤ q := by linarith
  have hnum : 0 ≤ q.num := Rat.num_nonneg.mpr hq0
  have hden : 0 ≤ (q.den : ℤ) := Int.natCast_nonneg q.den
  have hfl : pyInt q = ⌊q⌋ := by
    unfold pyInt
    rw [Rat.floor_def]
    exact Int.tdiv_eq_ediv hnum hden
  rw [hfl]
  exact Int.le_floor.mpr (by exact_mod_cast h)

theorem afterCC_err (st : SenderState) :
    (afterCC st).err =
      (if st.lastSeqSent < st.lastSeqWritten ∧
          st.lastSeqSent - st.lastAckRecv <
            pyInt (if st.useSlowStart then st.cwnd * 2 else st.cwnd + 1 / st.cwnd)
        then some PyErr.nameError else none) := by
  simp only [afterCC]
  cases hss : st.useSlowStart
  · simp only [Bool.false_eq_true, if_false]
    split <;> rfl
  · simp only [if_true]
    split <;> rfl

/-- C1, evaluated at the failing input: when a new cumulative ACK arrives
that covers everything in flight while further chunks are already buffered
but unsent, `Sender._recv` reaches the window-opening loop, whose body
evaluates the undefined name `_last_seq_sent` (the source omits `self.`)
and raises NameError before transmitting anything; the
acknowledgment-processing thread dies (with the retransmission timer
already cancelled on this path), so the buffered chunks are never
transmitted by that loop and end-to-end delivery stalls instead of
eventually completing. -/
theorem ack_processing_crash (st : SenderState) (now : ℚ) (p : Packet)
    (hgt : st.lastAckRecv < p.seqNum)
    (hok : (ackAdvance now (p.seqNum - st.lastAckRecv).toNat
      st.lastAckRecv st.rtt st.buf).2.2.2 = none)
    (hbuffered : p.seqNum < st.lastSeqWritten)
    (hsent : st.lastSeqSent ≤ p.seqNum)
    (hcw : 1 ≤ st.cwnd) :
    (senderAck st now p).err = some PyErr.nameError ∧
    (senderAck st now p).sent = [] := by
  rw [senderAck_progress _ _ _ hgt hok]
  refine ⟨?_, (afterCC_st _).2⟩
  rw [afterCC_err]
  have hls : (if st.lastSeqSent < p.seqNum then p.seqNum else st.lastSeqSent) =
      p.seqNum := by
    split <;> omega
  have hpos : 0 < 1 / st.cwnd := by positivity
  have hc1 : (1 : ℚ) ≤ (if st.useFastRetransmit then st.cwnd
      else st.cwnd + 1 / st.cwnd) := by
    split <;> linarith
  have hpos2 : 0 < 1 / (if st.useFastRetransmit then st.cwnd
      else st.cwnd + 1 / st.cwnd) := by positivity
  have hc2 : (1 : ℚ) ≤ (if st.useSlowStart then
      (if st.useFastRetransmit then st.cwnd else st.cwnd + 1 / st.cwnd) * 2
      else (if st.useFastRetransmit then st.cwnd else st.cwnd + 1 / st.cwnd) +
        1 / (if st.useFastRetransmit then st.cwnd else st.cwnd + 1 / st.cwnd)) := by
    split <;> linarith
  have hpi := one_le_pyInt _ hc2
  rw [if_pos ?hcond]
  case hcond =>
    simp only []
    rw [hls]
    exact ⟨by omega, by omega⟩

/-- Witness for C1's failing input: the sender state after the SYN was
transmitted (seq 0 in flight, rtt = 2·(1+1) = 4, timer armed) with two
chunks buffered as seqs 1 and 2 but unsent (cwnd = 1 kept the window shut);
the ACK for seq 0 then crashes the processing loop. -/
theorem ack_processing_crash_witness :
    (senderAck ⟨4, -1, 0, 2,
        (fun q => if q = 0 then some ⟨⟨.syn, 0, []⟩, .sentAt 0⟩
          else if q = 1 then some ⟨⟨.data, 1, [1]⟩, .unset⟩
          else if q = 2 then some ⟨⟨.data, 2, [2]⟩, .unset⟩ else none),
        1, 0, some 8, false, false⟩ 1 ⟨.ack, 0, []⟩).err = some PyErr.nameError ∧
    (senderAck ⟨4, -1, 0, 2,
        (fun q => if q = 0 then some ⟨⟨.syn, 0, []⟩, .sentAt 0⟩
          else if q = 1 then some ⟨⟨.data, 1, [1]⟩, .unset⟩
          else if q = 2 then some ⟨⟨.data, 2, [2]⟩, .unset⟩ else none),
        1, 0, some 8, false, false⟩ 1 ⟨.ack, 0, []⟩).sent = [] :=
  ack_processing_crash ⟨4, -1, 0, 2,
      (fun q => if q = 0 then some ⟨⟨.syn, 0, []⟩, .sentAt 0⟩
        else if q = 1 then some ⟨⟨.data, 1, [1]⟩, .unset⟩
        else if q = 2 then some ⟨⟨.data, 2, [2]⟩, .unset⟩ else none),
      1, 0, some 8, false, false⟩ 1 ⟨.ack, 0, []⟩
    (by decide) (by decide) (by decide) (by decide) (by decide)
